import Mathlib

/-!
Verification development for the image-manipulation catalog of `src/app.py`
(flowall).  The catalog functions are thin wrappers over Pillow raster
primitives; this file gives a shallow embedding of the relevant data model
(RGBA rasters with per-channel values) and of the catalog functions
`hex_to_rgb`, `change_color`, `change_transparency`, `rectangle`,
`overlay_images` and `rectangular_pattern`, together with the Pillow
primitives they invoke (`crop`, `paste` with an RGBA mask,
`alpha_composite`, `convert("RGBA")`, `putalpha` via `Image.eval`).

Modelling conventions:
* Python strings are sequences of Unicode code points, embedded as
  `List Nat` (ASCII is all the repository's callers use).
* A raster is a `width`, a `height`, a color `mode` (RGB or RGBA) and a
  total pixel function; only applications at coordinates inside the
  bounds are meaningful.  Pixel channels are unbounded `Nat`s recording
  the values the Python code computes and hands to the raster library;
  every raster produced by Pillow itself has byte-valued channels
  (`Img.Bytes`), and theorems that depend on byte ranges hypothesise it.
* Functions that can raise a Python exception return `Option` (`none`
  marks the exception escaping to the caller).
* `change_color` and `change_transparency` rewrite their argument's
  pixel buffer in place (`putdata`) when the argument is already RGBA;
  those embeddings therefore return a pair: the function result together
  with the state of the caller's raster after the call.
-/

/-- One pixel: red, green, blue and alpha channel values.  For RGB-mode
rasters the `a` field is not meaningful (Pillow stores 3-tuples there);
`convertRGBA` installs 255 when promoting. -/
structure Pixel where
  r : Nat
  g : Nat
  b : Nat
  a : Nat
  deriving DecidableEq

/-- The two Pillow color modes the repository's code distinguishes
(`image.mode != "RGBA"` checks). -/
inductive PMode where
  | rgb
  | rgba
  deriving DecidableEq

/-- A raster image: size, mode and pixel grid (total function; junk
outside the bounds). -/
structure Img where
  width : Nat
  height : Nat
  mode : PMode
  pix : Nat → Nat → Pixel

/-- All channels of all in-bounds pixels are bytes.  True of every raster
actually produced by Pillow. -/
def Img.Bytes (img : Img) : Prop :=
  ∀ x < img.width, ∀ y < img.height,
    (img.pix x y).r ≤ 255 ∧ (img.pix x y).g ≤ 255 ∧
    (img.pix x y).b ≤ 255 ∧ (img.pix x y).a ≤ 255

/-- Pillow `image.convert("RGBA")`: identity (a copy) on RGBA rasters, installs
alpha 255 when promoting an RGB raster. -/
def convertRGBA (img : Img) : Img :=
  if img.mode = PMode.rgba then img
  else ⟨img.width, img.height, PMode.rgba,
        fun x y => ⟨(img.pix x y).r, (img.pix x y).g, (img.pix x y).b, 255⟩⟩

/-- Pillow `Image.new("RGBA", (w, h), fill)` (`w`, `h` already checked
nonnegative by the caller). -/
def newRGBA (w h : Nat) (fill : Pixel) : Img :=
  ⟨w, h, PMode.rgba, fun _ _ => fill⟩

/-- The `SCALE_FACTOR` of `src/app.py` (line 16). -/
def SCALE_FACTOR : Nat := 4

/-- The opacity byte `int(255 - 255 * (transparency / 100))` computed at
`src/app.py` lines 56, 93 and 108.  Python evaluates the expression in
binary floating point and `int` truncates toward zero; for every integer
`transparency` in [0, 100] the float evaluation is exact enough that the
truncated result coincides with the exact rational floor
⌊255 − 255·t/100⌋ (the fractional part of 255·t/100 is a multiple of
1/20, so it is never within the ≤ 2⁻⁴⁵-relative rounding error of the
wrong side of an integer; for t a multiple of 20 the product
255·(t/100) rounds to the exact integer).  The model is that floor,
written with natural division; it is only used for t ≤ 100. -/
def pyOpacity (t : Nat) : Nat := (25500 - 255 * t) / 100

/-- Characters `int(s, 16)` strips from both ends (ASCII whitespace). -/
def isPyWS (c : Nat) : Bool :=
  c == 9 || c == 10 || c == 11 || c == 12 || c == 13 || c == 32

/-- Value of a hexadecimal digit character (code point), if it is one. -/
def hexVal? (c : Nat) : Option Nat :=
  if 48 ≤ c ∧ c ≤ 57 then some (c - 48)
  else if 97 ≤ c ∧ c ≤ 102 then some (c - 87)
  else if 65 ≤ c ∧ c ≤ 70 then some (c - 55)
  else none

/-- Digit-sequence part of Python `int(s, 16)`: hexadecimal digits with
single underscores allowed between digits. -/
def hexDigitsGo : Nat → List Nat → Option Nat
  | acc, [] => some acc
  | acc, c :: rest =>
    if c = 95 then
      match rest with
      | [] => none
      | d :: rest2 =>
        match hexVal? d with
        | none => none
        | some v => hexDigitsGo (16 * acc + v) rest2
    else
      match hexVal? c with
      | none => none
      | some v => hexDigitsGo (16 * acc + v) rest

/-- Nonempty digit sequence (first character must be a digit). -/
def hexDigitsParse : List Nat → Option Nat
  | [] => none
  | c :: rest =>
    match hexVal? c with
    | none => none
    | some v => hexDigitsGo v rest

/-- Magnitude part of Python `int(s, 16)`: optional `0x`/`0X` prefix
(an underscore may follow the prefix), then digits. -/
def pyIntHexMag : List Nat → Option Nat
  | c0 :: c1 :: rest =>
    if c0 = 48 ∧ (c1 = 120 ∨ c1 = 88) then
      match rest with
      | [] => none
      | c2 :: rest2 => if c2 = 95 then hexDigitsParse rest2 else hexDigitsParse (c2 :: rest2)
    else hexDigitsParse (c0 :: c1 :: rest)
  | cs => hexDigitsParse cs

/-- Strip ASCII whitespace from both ends. -/
def stripWS (cs : List Nat) : List Nat :=
  ((cs.dropWhile isPyWS).reverse.dropWhile isPyWS).reverse

/-- Python `int(s, 16)` on a string given as its list of code points:
strip whitespace, optional sign, optional `0x` prefix, underscore-grouped
hex digits.  `none` is a `ValueError`. -/
def pyIntHex (cs : List Nat) : Option Int :=
  match stripWS cs with
  | [] => none
  | c :: rest =>
    if c = 43 then (pyIntHexMag rest).map (fun n => (n : Int))
    else if c = 45 then (pyIntHexMag rest).map (fun n => -(n : Int))
    else (pyIntHexMag (c :: rest)).map (fun n => (n : Int))

/-- Python slice `s[i : i + 2]` (clamping semantics). -/
def slice2 (cs : List Nat) (i : Nat) : List Nat := (cs.drop i).take 2

/-- Python `str.lstrip("#")`: drop every leading `#`. -/
def hashStrip (cs : List Nat) : List Nat := cs.dropWhile (fun c => c == 35)

/-- Function `hex_to_rgb` (`src/app.py` lines 18–26): strip leading `#`s, parse
the three two-character slices at 0, 2, 4 with `int(_, 16)`.  Any
slice failing to parse raises `ValueError` (`none`). -/
def hex_to_rgb (cs : List Nat) : Option (Int × Int × Int) :=
  let s := hashStrip cs
  match pyIntHex (slice2 s 0), pyIntHex (slice2 s 2), pyIntHex (slice2 s 4) with
  | some r, some g, some b => some (r, g, b)
  | _, _, _ => none

/-- Pillow's `MULDIV255` macro (`Paste.c`): approximate `a * b / 255`
with rounding, `tmp = a*b + 128; ((tmp >> 8) + tmp) >> 8`. -/
def muldiv255 (a b : Nat) : Nat :=
  ((a * b + 128) / 256 + (a * b + 128)) / 256

/-- Pillow's `BLEND` macro (`Paste.c`): blend destination channel `d`
and source channel `s` by mask value `m`. -/
def blendc (m d s : Nat) : Nat := muldiv255 d (255 - m) + muldiv255 s m

/-- One pixel of `Image.paste(src, box, mask)` where the mask is the
RGBA source itself: every band (alpha included) is blended by the
source pixel's alpha. -/
def pastePix (d s : Pixel) : Pixel :=
  ⟨blendc s.a d.r s.r, blendc s.a d.g s.g, blendc s.a d.b s.b, blendc s.a d.a s.a⟩

/-- Pillow `dest.paste(src, (x, y), src)` for RGBA `dest` and `src`: pixels of
`dest` in the placed source rectangle are mask-blended, the rest are
unchanged; the source is clipped at `dest`'s bounds implicitly because
only in-bounds destination coordinates are meaningful. -/
def paste (dest src : Img) (x y : Int) : Img :=
  ⟨dest.width, dest.height, dest.mode,
   fun px py =>
     if x ≤ (px : Int) ∧ (px : Int) < x + src.width ∧
        y ≤ (py : Int) ∧ (py : Int) < y + src.height then
       pastePix (dest.pix px py) (src.pix ((px : Int) - x).toNat ((py : Int) - y).toNat)
     else dest.pix px py⟩

/-- The raster `image.crop((l, u, r, d))` returns when it does not
raise: size `(r - l, d - u)`, pixels taken from the source where the
box overlaps it and zero-filled (fully transparent black) outside. -/
def cropPure (img : Img) (l u r d : Int) : Img :=
  ⟨(r - l).toNat, (d - u).toNat, img.mode,
   fun x y =>
     if 0 ≤ l + (x : Int) ∧ l + (x : Int) < img.width ∧
        0 ≤ u + (y : Int) ∧ u + (y : Int) < img.height then
       img.pix (l + (x : Int)).toNat (u + (y : Int)).toNat
     else ⟨0, 0, 0, 0⟩⟩

/-- Pillow `image.crop((l, u, r, d))`: raises `ValueError` when the box
is inverted (`r < l` or `d < u`); otherwise see `cropPure`. -/
def pilCrop (img : Img) (l u r d : Int) : Option Img :=
  if r < l ∨ d < u then none else some (cropPure img l u r d)

/-- The alpha scaling `putalpha(Image.eval(alpha, lambda a: int(a * (t / 255))))`
(`src/app.py` lines 151–154): scale the alpha band, keep the color
bands.  The Python float truncation `int(a * (t / 255))` is modelled by
the rational floor `a * t / 255`; no claim in this file depends on the
scaled values themselves. -/
def scaleAlpha (img : Img) (t : Nat) : Img :=
  ⟨img.width, img.height, img.mode,
   fun x y => ⟨(img.pix x y).r, (img.pix x y).g, (img.pix x y).b,
               (img.pix x y).a * t / 255⟩⟩

/-- Lines 144–154 of `overlay_images`: promote the overlay to RGBA,
then scale its alpha band when `transparency < 255`. -/
def overlayPrep (overlay : Img) (transparency : Nat) : Img :=
  let ov0 := if overlay.mode ≠ PMode.rgba then convertRGBA overlay else overlay
  if transparency < 255 then scaleAlpha ov0 transparency else ov0

/-- Lines 162–164 of `overlay_images`: `if x < 0: crop((-x, 0,
overlay_width, overlay_height)); x = 0`. -/
def overlayCropLeft (ov : Img) (x0 wo ho : Int) : Option (Img × Int) :=
  if x0 < 0 then (pilCrop ov (-x0) 0 wo ho).map (fun i => (i, (0 : Int)))
  else some (ov, x0)

/-- Lines 165–167 of `overlay_images`: `if y < 0: crop((0, -y,
overlay_width, overlay_height)); y = 0`. -/
def overlayCropTop (ov : Img) (y0 wo ho : Int) : Option (Img × Int) :=
  if y0 < 0 then (pilCrop ov 0 (-y0) wo ho).map (fun i => (i, (0 : Int)))
  else some (ov, y0)

/-- Lines 168–169 of `overlay_images`: `if x + overlay_width >
base_width: crop((0, 0, base_width - x, overlay_height))`. -/
def overlayCropRight (ov : Img) (x wo W ho : Int) : Option Img :=
  if x + wo > W then pilCrop ov 0 0 (W - x) ho else some ov

/-- Lines 170–171 of `overlay_images`: `if y + overlay_height >
base_height: crop((0, 0, overlay_width, base_height - y))`. -/
def overlayCropBottom (ov : Img) (y ho H wo : Int) : Option Img :=
  if y + ho > H then pilCrop ov 0 0 wo (H - y) else some ov

/-- Function `overlay_images` (`src/app.py` lines 134–177).  Faithful points:
the offset is scaled by `SCALE_FACTOR`; the overlay is promoted to
RGBA and alpha-scaled when `transparency < 255`; `overlay_width` and
`overlay_height` are read once (lines 157–158) and all four crop boxes
use those stale values, so a later crop can re-expand a shrunk overlay
with zero-filled pixels; each `crop` can raise (`none`); finally the
overlay is mask-pasted onto `base_image.convert("RGBA")` (a copy). -/
def overlay_images (base overlay : Img) (offset_x offset_y : Int) (transparency : Nat) :
    Option Img :=
  let x0 : Int := offset_x * (SCALE_FACTOR : Int)
  let y0 : Int := offset_y * (SCALE_FACTOR : Int)
  let ov1 := overlayPrep overlay transparency
  let W : Int := base.width
  let H : Int := base.height
  let wo : Int := ov1.width
  let ho : Int := ov1.height
  (overlayCropLeft ov1 x0 wo ho).bind (fun p =>
    (overlayCropTop p.1 y0 wo ho).bind (fun q =>
      (overlayCropRight q.1 p.2 wo W ho).bind (fun ov4 =>
        (overlayCropBottom ov4 q.2 ho H wo).map (fun ov5 =>
          paste (convertRGBA base) ov5 p.2 q.2))))

/-- One pixel of Pillow's Porter-Duff over operator
(`AlphaComposite.c`, `PRECISION_BITS = 7`): destination pixel `d`
under source pixel `s`. -/
def acPix (d s : Pixel) : Pixel :=
  if s.a = 0 then d
  else
    let blend := d.a * (255 - s.a)
    let outa255 := s.a * 255 + blend
    let coef1 := s.a * 255 * 255 * 128 / outa255
    let coef2 := 255 * 128 - coef1
    let mix : Nat → Nat → Nat := fun cs cd =>
      (((cs * coef1 + cd * coef2 + 16384) / 256 + (cs * coef1 + cd * coef2 + 16384)) / 256) / 128
    ⟨mix s.r d.r, mix s.g d.g, mix s.b d.b,
     ((outa255 + 128) / 256 + (outa255 + 128)) / 256⟩

/-- The raster `dest.alpha_composite(src, (dx, dy))` produces once its
argument checks pass: pixels in the placed source rectangle are
composited (`acPix`), the rest unchanged; the source is clipped at
`dest`'s bounds because out-of-bounds destination coordinates are not
meaningful. -/
def alphaCompositePure (dest src : Img) (dx dy : Int) : Img :=
  ⟨dest.width, dest.height, dest.mode,
   fun px py =>
     if dx ≤ (px : Int) ∧ (px : Int) < dx + src.width ∧
        dy ≤ (py : Int) ∧ (py : Int) < dy + src.height then
       acPix (dest.pix px py) (src.pix ((px : Int) - dx).toNat ((py : Int) - dy).toNat)
     else dest.pix px py⟩

/-- Pillow `dest.alpha_composite(src, (dx, dy))`: raises `ValueError` when the
destination offset is negative (checked in `Image.py`) or when either
raster is not RGBA (checked in `AlphaComposite.c`). -/
def pilAlphaComposite (dest src : Img) (dx dy : Int) : Option Img :=
  if dx < 0 ∨ dy < 0 then none
  else if dest.mode ≠ PMode.rgba ∨ src.mode ≠ PMode.rgba then none
  else some (alphaCompositePure dest src dx dy)

/-- Function `rectangular_pattern` (`src/app.py` lines 114–131): scale the steps,
size the canvas (`count·step`, widened by the tile overflow when a step
is smaller than the tile), create a transparent canvas
(`Image.new` raises on a negative size), then `alpha_composite` the tile
at `(x * step_x, y * step_y)` for `x` in `range(count_x)` (outer loop)
and `y` in `range(count_y)` (inner loop); `range` of a negative count is
empty, matching `Int.toNat`. -/
def rectangular_pattern (image : Img) (count_x count_y step_x step_y : Int) : Option Img :=
  let sxs : Int := step_x * (SCALE_FACTOR : Int)
  let sys : Int := step_y * (SCALE_FACTOR : Int)
  let w : Int := image.width
  let h : Int := image.height
  let nw : Int := count_x * sxs + (if sxs < w then w - sxs else 0)
  let nh : Int := count_y * sys + (if sys < h then h - sys else 0)
  if nw < 0 ∨ nh < 0 then none
  else
    (List.range count_x.toNat).foldlM
      (fun acc (i : Nat) =>
        (List.range count_y.toNat).foldlM
          (fun acc2 (j : Nat) => pilAlphaComposite acc2 image ((i : Int) * sxs) ((j : Int) * sys))
          acc)
      (newRGBA nw.toNat nh.toNat ⟨255, 255, 255, 0⟩)

/-- Function `change_color` (`src/app.py` lines 72–85).  The result keeps fully
transparent pixels and rewrites the color bands of every other pixel to
the parsed color.  `hex_to_rgb` is called inside the pixel loop, so an
invalid color raises (`none`) before `putdata` runs.  The second
component of the returned pair is the caller's raster after the call:
when the argument was already RGBA, `putdata` rewrote it in place and
the very same (mutated) raster is returned; otherwise the argument is
untouched.  The parsed channels are bytes for every color reachable
from hex digits; `Int.toNat` records them in the `Nat`-valued pixel. -/
def change_color (image : Img) (color : List Nat) : Option (Img × Img) :=
  let img1 := if image.mode ≠ PMode.rgba then convertRGBA image else image
  match hex_to_rgb color with
  | none => none
  | some (r, g, b) =>
    let res : Img :=
      ⟨img1.width, img1.height, img1.mode,
       fun x y =>
         if (img1.pix x y).a = 0 then img1.pix x y
         else ⟨r.toNat, g.toNat, b.toNat, (img1.pix x y).a⟩⟩
    some (res, if image.mode = PMode.rgba then res else image)

/-- Function `change_transparency` (`src/app.py` lines 87–97): every pixel's
alpha is replaced by `int(item[3] * opacity)` — the plain product of
the existing alpha and the opacity byte, with no renormalization — and
the color bands are kept.  Mutation bookkeeping as in `change_color`;
there is no failure path. -/
def change_transparency (image : Img) (transparency : Nat) : Img × Img :=
  let img1 := if image.mode ≠ PMode.rgba then convertRGBA image else image
  let res : Img :=
    ⟨img1.width, img1.height, img1.mode,
     fun x y => ⟨(img1.pix x y).r, (img1.pix x y).g, (img1.pix x y).b,
                 (img1.pix x y).a * pyOpacity transparency⟩⟩
  (res, if image.mode = PMode.rgba then res else image)

/-- Function `rectangle` (`src/app.py` lines 100–111): a `(w·S, h·S)` RGBA
raster whose every pixel is the parsed color with the derived opacity
byte as alpha (`draw.rectangle((0, 0, width, height))` covers the whole
raster and `ImageDraw` replaces pixels, alpha included).  An invalid
color raises (`none`). -/
def rectangle (width height : Nat) (color : List Nat) (transparency : Nat) : Option Img :=
  (hex_to_rgb color).map (fun v =>
    ⟨width * SCALE_FACTOR, height * SCALE_FACTOR, PMode.rgba,
     fun _ _ => ⟨v.1.toNat, v.2.1.toNat, v.2.2.toNat, pyOpacity transparency⟩⟩)

/-- Spec-side (§3/§4.6): the opacity byte as the specification words it,
`round(255 * (1 - transparency / 100))`.  At the inputs where this is
compared with `pyOpacity` the value is not a half-integer, so the
rounding-tie convention is irrelevant. -/
def opacityRound (t : Nat) : Int := round ((255 : ℚ) * (1 - (t : ℚ) / 100))

/-- Spec-side: uppercase a code point (for the round-trip "modulo
letter case"). -/
def upperCode (c : Nat) : Nat := if 97 ≤ c ∧ c ≤ 122 then c - 32 else c

/-- Spec-side: the uppercase hexadecimal digit character for a value
below 16. -/
def hexCharU (v : Nat) : Nat := if v < 10 then 48 + v else 55 + v

/-- Spec-side: two-digit uppercase hexadecimal encoding of a byte. -/
def encodeHexPair (n : Nat) : List Nat := [hexCharU (n / 16), hexCharU (n % 16)]

/-- Spec-side: re-encode an (R, G, B) triple as six uppercase
hexadecimal digits. -/
def encodeHexTriple (r g b : Nat) : List Nat :=
  encodeHexPair r ++ encodeHexPair g ++ encodeHexPair b

/-- Spec-side (§4.8): the rectangular pattern as the specification
describes it — a transparent canvas of the stated size with
`count_x · count_y` copies of the tile alpha-composited at grid offsets
`(i · step_x, j · step_y)` (supersampled units), drawn in the source's
x-major order so that later copies blend over earlier ones. -/
def rectangular_pattern_spec (image : Img) (count_x count_y step_x step_y : Int) : Img :=
  let sxs : Int := step_x * (SCALE_FACTOR : Int)
  let sys : Int := step_y * (SCALE_FACTOR : Int)
  let nw : Int := count_x * sxs + (if sxs < (image.width : Int) then (image.width : Int) - sxs else 0)
  let nh : Int := count_y * sys + (if sys < (image.height : Int) then (image.height : Int) - sys else 0)
  let cells := (List.range count_x.toNat).flatMap
    (fun i => (List.range count_y.toNat).map (fun j => (i, j)))
  cells.foldl
    (fun acc c => alphaCompositePure acc image ((c.1 : Int) * sxs) ((c.2 : Int) * sys))
    (newRGBA nw.toNat nh.toNat ⟨255, 255, 255, 0⟩)

/-- Concrete 4×4 RGBA raster used as a base image in witnesses. -/
def base4 : Img := ⟨4, 4, PMode.rgba, fun _ _ => ⟨10, 20, 30, 255⟩⟩

/-- Concrete 4×4 fully opaque RGBA raster used as an overlay in
witnesses. -/
def ov4 : Img := ⟨4, 4, PMode.rgba, fun _ _ => ⟨100, 110, 120, 255⟩⟩

/-- Concrete 1×1 RGBA raster with a partially transparent pixel. -/
def img1x1 : Img := ⟨1, 1, PMode.rgba, fun _ _ => ⟨1, 2, 3, 4⟩⟩

/-- Concrete 1×1 RGB-mode raster (no alpha channel). -/
def tileRGB : Img := ⟨1, 1, PMode.rgb, fun _ _ => ⟨5, 6, 7, 0⟩⟩

/-- Concrete 1×1 opaque RGBA tile. -/
def tile1 : Img := ⟨1, 1, PMode.rgba, fun _ _ => ⟨0, 0, 0, 255⟩⟩

/-- The code points of the color string "000000". -/
def colorBlack : List Nat := [48, 48, 48, 48, 48, 48]

/-- The code points of the string "AABBCCD" (seven hexadecimal
digits). -/
def codesAABBCCD : List Nat := [65, 65, 66, 66, 67, 67, 68]

/-- The code points of the string "aAbBcC". -/
def codesaAbBcC : List Nat := [97, 65, 98, 66, 99, 67]

/-! ### Helper lemmas about the Pillow primitives -/

theorem convertRGBA_width (img : Img) : (convertRGBA img).width = img.width := by
  unfold convertRGBA; split <;> rfl

theorem convertRGBA_height (img : Img) : (convertRGBA img).height = img.height := by
  unfold convertRGBA; split <;> rfl

theorem convertRGBA_mode (img : Img) : (convertRGBA img).mode = PMode.rgba := by
  unfold convertRGBA; split
  · assumption
  · rfl

theorem convert_ite (img : Img) :
    (if img.mode ≠ PMode.rgba then convertRGBA img else img) = convertRGBA img := by
  by_cases h : img.mode = PMode.rgba
  · simp [h, convertRGBA]
  · simp [h]

theorem convertRGBA_bytes (img : Img) (h : img.Bytes) : (convertRGBA img).Bytes := by
  unfold convertRGBA Img.Bytes at *
  split
  · exact h
  · intro x hx y hy
    exact ⟨(h x hx y hy).1, (h x hx y hy).2.1, (h x hx y hy).2.2.1, by norm_num⟩

theorem muldiv255_zero (a : Nat) : muldiv255 a 0 = 0 := by
  norm_num [muldiv255]

set_option maxRecDepth 4000 in
theorem muldiv255_full (a : Nat) (h : a ≤ 255) : muldiv255 a 255 = a := by
  have H : ∀ a < 256, muldiv255 a 255 = a := by decide
  exact H a (by omega)

theorem blendc_zero (d s : Nat) (hd : d ≤ 255) : blendc 0 d s = d := by
  unfold blendc
  rw [muldiv255_zero, muldiv255_full d hd, Nat.add_zero]

theorem blendc_full (d s : Nat) (hs : s ≤ 255) : blendc 255 d s = s := by
  unfold blendc
  have h0 : 255 - 255 = 0 := rfl
  rw [h0, muldiv255_zero, muldiv255_full s hs, Nat.zero_add]

theorem pastePix_opaque (d s : Pixel) (ha : s.a = 255)
    (hs : s.r ≤ 255 ∧ s.g ≤ 255 ∧ s.b ≤ 255) : pastePix d s = s := by
  obtain ⟨sr, sg, sb, sa⟩ := s
  simp only at ha hs
  subst ha
  unfold pastePix
  simp only
  rw [blendc_full d.r sr hs.1, blendc_full d.g sg hs.2.1,
      blendc_full d.b sb hs.2.2, blendc_full d.a 255 (by norm_num)]

theorem pastePix_clear (d s : Pixel) (ha : s.a = 0)
    (hd : d.r ≤ 255 ∧ d.g ≤ 255 ∧ d.b ≤ 255 ∧ d.a ≤ 255) : pastePix d s = d := by
  obtain ⟨dr, dg, db, da⟩ := d
  simp only at hd
  unfold pastePix
  rw [ha]
  simp only
  rw [blendc_zero dr s.r hd.1, blendc_zero dg s.g hd.2.1,
      blendc_zero db s.b hd.2.2.1, blendc_zero da 0 hd.2.2.2]

/-! ### Claim C2 -/

/-- Claim C2 (counterexample): the opacity byte the code derives from
transparency 2 is 249, produced by `int(...)` truncation, whereas the
formula `round(255 * (1 - t/100))` claimed by the specification yields
250. -/
theorem pyOpacity_round_counterexample :
    pyOpacity 2 = 249 ∧ opacityRound 2 = 250 ∧ ((pyOpacity 2 : Int) ≠ opacityRound 2) := by
  refine ⟨by norm_num [pyOpacity], ?_, ?_⟩
  · norm_num [opacityRound, round_eq]
  · norm_num [pyOpacity, opacityRound, round_eq]

/-- Claim C2 (amended): for every transparency percent t in [0, 100],
the opacity byte that circle, rectangle and change_transparency derive
from t (`int(255 - 255 * (t / 100))`) equals the floor
⌊255 − 255·t/100⌋ — truncation, not `round(255 * (1 - t/100))` — and it
is the alpha value of every pixel a successful `rectangle` call
produces. -/
theorem pyOpacity_floor (t : Nat) (ht : t ≤ 100) :
    ((pyOpacity t : Int) = ⌊(255 : ℚ) - 255 * (t : ℚ) / 100⌋) ∧
    pyOpacity t ≤ 255 ∧
    (∀ w h c R, rectangle w h c t = some R → ∀ x y, (R.pix x y).a = pyOpacity t) := by
  refine ⟨?_, by unfold pyOpacity; omega, ?_⟩
  · have hle : 255 * t ≤ 25500 := by omega
    have hcast : (255 : ℚ) - 255 * (t : ℚ) / 100 = ((25500 - 255 * t : Nat) : ℚ) / 100 := by
      rw [Nat.cast_sub hle]
      push_cast
      ring
    rw [hcast]
    have key : ⌊((25500 - 255 * t : Nat) : ℚ) / 100⌋ = ((25500 - 255 * t) / 100 : Nat) := by
      set N : Nat := 25500 - 255 * t with hN
      rw [Int.floor_eq_iff]
      constructor
      · rw [le_div_iff₀ (by norm_num : (0 : ℚ) < 100)]
        exact_mod_cast Nat.div_mul_le_self N 100
      · rw [div_lt_iff₀ (by norm_num : (0 : ℚ) < 100)]
        have hlt : N < (N / 100 + 1) * 100 := by omega
        push_cast
        exact_mod_cast hlt
    rw [key]
    rfl
  · intro w h c R hR x y
    unfold rectangle at hR
    cases hhex : hex_to_rgb c with
    | none => rw [hhex] at hR; cases hR
    | some v =>
      rw [hhex] at hR
      injection hR with h
      rw [← h]

/-- Witness for `pyOpacity_floor` at t = 2. -/
theorem pyOpacity_floor_witness :
    ((pyOpacity 2 : Int) = ⌊(255 : ℚ) - 255 * ((2 : Nat) : ℚ) / 100⌋) ∧
    pyOpacity 2 ≤ 255 ∧
    (∀ w h c R, rectangle w h c 2 = some R → ∀ x y, (R.pix x y).a = pyOpacity 2) :=
  pyOpacity_floor 2 (by norm_num)

/-! ### Claim C3 -/

/-- Claim C3 (counterexample): `change_color` applied to an RGBA raster
rewrites the caller's raster in place — after the call the argument's
pixel (0,0) is (0, 0, 0, 4), no longer its original value (1, 2, 3, 4). -/
theorem change_color_mutates_counterexample :
    ((change_color img1x1 colorBlack).map (fun p => p.2.pix 0 0)) = some ⟨0, 0, 0, 4⟩ ∧
    img1x1.pix 0 0 = ⟨1, 2, 3, 4⟩ ∧
    ((change_color img1x1 colorBlack).map (fun p => p.2.pix 0 0)) ≠ some (img1x1.pix 0 0) := by
  refine ⟨by decide, by decide, by decide⟩

/-- Claim C3 (amended): `change_color` and `change_transparency` mutate
an already-RGBA argument in place — the raster the caller passed is,
after the call, the very same (rewritten) raster the function returns —
while an argument without an alpha channel is first copied by
`convert("RGBA")` and therefore left unchanged. -/
theorem change_inplace_mutation (img : Img) (c : List Nat) (t : Nat) :
    (∀ res, change_color img c = some res →
       (img.mode = PMode.rgba → res.2 = res.1) ∧ (img.mode ≠ PMode.rgba → res.2 = img)) ∧
    (img.mode = PMode.rgba → (change_transparency img t).2 = (change_transparency img t).1) ∧
    (img.mode ≠ PMode.rgba → (change_transparency img t).2 = img) := by
  refine ⟨?_, ?_, ?_⟩
  · intro res hres
    unfold change_color at hres
    cases hhex : hex_to_rgb c with
    | none => rw [hhex] at hres; cases hres
    | some v =>
      obtain ⟨r, g, b⟩ := v
      rw [hhex] at hres
      simp only at hres
      injection hres with h
      constructor
      · intro hm
        rw [← h]
        simp [hm]
      · intro hm
        rw [← h]
        simp [hm]
  · intro hm
    simp [change_transparency, hm]
  · intro hm
    simp [change_transparency, hm]

/-- Witness for `change_inplace_mutation`: on the RGBA raster `img1x1`,
the raster returned by `change_transparency` is the argument itself. -/
theorem change_inplace_mutation_witness :
    (change_transparency img1x1 5).2 = (change_transparency img1x1 5).1 :=
  (change_inplace_mutation img1x1 colorBlack 5).2.1 rfl

/-! ### Claim C4 -/

/-- Claim C4: for every raster and transparency percent t in [0, 100],
`change_transparency` sets each output pixel's alpha to the plain
product of the pixel's existing alpha and the derived opacity byte,
with no renormalization; at existing alpha 255 and t = 0 (opacity byte
255) the computed alpha is 65025, far above 255. -/
theorem change_transparency_alpha_product (img : Img) (t : Nat) (_ht : t ≤ 100) :
    (∀ x y, ((change_transparency img t).1.pix x y).a
        = ((convertRGBA img).pix x y).a * pyOpacity t) ∧
    pyOpacity 0 = 255 ∧ 255 * pyOpacity 0 = 65025 := by
  refine ⟨?_, by norm_num [pyOpacity], by norm_num [pyOpacity]⟩
  intro x y
  unfold change_transparency
  rw [convert_ite]

/-- Witness for `change_transparency_alpha_product` at `img1x1`,
t = 0. -/
theorem change_transparency_alpha_product_witness :
    ((change_transparency img1x1 0).1.pix 0 0).a
      = ((convertRGBA img1x1).pix 0 0).a * pyOpacity 0 :=
  (change_transparency_alpha_product img1x1 0 (by norm_num)).1 0 0

/-! ### Claim C5 -/

/-- Claim C5: recolor (`change_color`) leaves every pixel's alpha equal
to its input value and leaves pixels whose alpha is exactly 0 entirely
unchanged, while replacing the color channels of every pixel with
nonzero alpha by the parsed color's channels; retransparency
(`change_transparency`) leaves every pixel's color channels equal to
their input values.  (Inputs without an alpha channel are promoted by
`convert("RGBA")` first, so the comparison is against the promoted
pixels.) -/
theorem recolor_retransparency_channels (img : Img) (c : List Nat) (t : Nat)
    (r g b : Int) (hc : hex_to_rgb c = some (r, g, b))
    (hr : 0 ≤ r) (hg : 0 ≤ g) (hb : 0 ≤ b) :
    (∀ res, change_color img c = some res →
      ∀ x y,
        ((res.1.pix x y).a = ((convertRGBA img).pix x y).a) ∧
        (((convertRGBA img).pix x y).a = 0 → res.1.pix x y = (convertRGBA img).pix x y) ∧
        (((convertRGBA img).pix x y).a ≠ 0 →
          ((res.1.pix x y).r : Int) = r ∧ ((res.1.pix x y).g : Int) = g ∧
          ((res.1.pix x y).b : Int) = b)) ∧
    (change_color img c).isSome = true ∧
    (∀ x y,
      ((change_transparency img t).1.pix x y).r = ((convertRGBA img).pix x y).r ∧
      ((change_transparency img t).1.pix x y).g = ((convertRGBA img).pix x y).g ∧
      ((change_transparency img t).1.pix x y).b = ((convertRGBA img).pix x y).b) := by
  refine ⟨?_, ?_, ?_⟩
  · intro res hres x y
    simp only [change_color, convert_ite, hc] at hres
    injection hres with h
    rw [← h]
    simp only
    by_cases ha : ((convertRGBA img).pix x y).a = 0
    · rw [if_pos ha]
      exact ⟨rfl, fun _ => rfl, fun hne => absurd ha hne⟩
    · rw [if_neg ha]
      refine ⟨rfl, fun h0 => absurd h0 ha, fun _ => ?_⟩
      exact ⟨by simp [Int.toNat_of_nonneg hr], by simp [Int.toNat_of_nonneg hg],
             by simp [Int.toNat_of_nonneg hb]⟩
  · simp [change_color, hc]
  · intro x y
    unfold change_transparency
    rw [convert_ite]
    exact ⟨rfl, rfl, rfl⟩

/-- Witness for `recolor_retransparency_channels` at `img1x1` with
color "000000". -/
theorem recolor_retransparency_channels_witness :
    ((change_color img1x1 colorBlack).isSome = true) ∧
    ((change_transparency img1x1 7).1.pix 0 0).r = ((convertRGBA img1x1).pix 0 0).r := by
  have H := recolor_retransparency_channels img1x1 colorBlack 7 0 0 0 (by decide)
    (by norm_num) (by norm_num) (by norm_num)
  exact ⟨H.2.1, (H.2.2 0 0).1⟩

/-! ### Claims C9 and C10: rectangular pattern -/

theorem foldlM_const_some (l : List Nat) (acc : Img) :
    l.foldlM (fun a (_ : Nat) => (some a : Option Img)) acc = some acc := by
  induction l generalizing acc with
  | nil => rfl
  | cons x xs ih => simpa [List.foldlM_cons] using ih acc

/-- Claim C10 (counterexample): with count_x = 0 but count_y = 3 and a
negative step_y, the computed canvas height is negative and
`Image.new` raises, so the call fails even though a count is zero. -/
theorem rectangular_pattern_zero_count_counterexample :
    rectangular_pattern tile1 0 3 1 (-1) = none := by rfl

/-- Claim C10 (amended): with nonnegative counts and steps, calling
rectangular_pattern with count_x = 0 or count_y = 0 does not fail and
pastes no copies of the tile — the result is the blank canvas, fully
transparent; on the zero-count axis the returned size is 0 when the
scaled step is at least the tile dimension on that axis, and the
positive overflow tile-dimension − scaled-step when the scaled step is
smaller. -/
theorem rectangular_pattern_zero_count (image : Img) (cx cy sx sy : Int)
    (h0 : cx = 0 ∨ cy = 0) (hcx : 0 ≤ cx) (hcy : 0 ≤ cy) (hsx : 0 ≤ sx) (hsy : 0 ≤ sy) :
    ∃ R, rectangular_pattern image cx cy sx sy = some R ∧
      (∀ u v, (R.pix u v).a = 0) ∧
      (cx = 0 →
        ((image.width : Int) ≤ sx * (SCALE_FACTOR : Int) → R.width = 0) ∧
        (sx * (SCALE_FACTOR : Int) < (image.width : Int) →
          (R.width : Int) = (image.width : Int) - sx * (SCALE_FACTOR : Int) ∧ 0 < R.width)) ∧
      (cy = 0 →
        ((image.height : Int) ≤ sy * (SCALE_FACTOR : Int) → R.height = 0) ∧
        (sy * (SCALE_FACTOR : Int) < (image.height : Int) →
          (R.height : Int) = (image.height : Int) - sy * (SCALE_FACTOR : Int) ∧ 0 < R.height)) := by
  simp only [rectangular_pattern]
  set sxs : Int := sx * (SCALE_FACTOR : Int) with hsxs
  set sys : Int := sy * (SCALE_FACTOR : Int) with hsys
  have hsxs0 : 0 ≤ sxs := by
    rw [hsxs]; exact mul_nonneg hsx (by norm_num)
  have hsys0 : 0 ≤ sys := by
    rw [hsys]; exact mul_nonneg hsy (by norm_num)
  set w : Int := (image.width : Int) with hw
  set h : Int := (image.height : Int) with hh
  set nw : Int := cx * sxs + (if sxs < w then w - sxs else 0) with hnw
  set nh : Int := cy * sys + (if sys < h then h - sys else 0) with hnh
  have hw0 : 0 ≤ w := by rw [hw]; exact_mod_cast Nat.zero_le _
  have hh0 : 0 ≤ h := by rw [hh]; exact_mod_cast Nat.zero_le _
  have hnw0 : 0 ≤ nw := by
    rw [hnw]
    have h1 : 0 ≤ cx * sxs := mul_nonneg hcx hsxs0
    split <;> omega
  have hnh0 : 0 ≤ nh := by
    rw [hnh]
    have h1 : 0 ≤ cy * sys := mul_nonneg hcy hsys0
    split <;> omega
  rw [if_neg (by omega)]
  have hfold :
      (List.range cx.toNat).foldlM
        (fun acc (i : Nat) =>
          (List.range cy.toNat).foldlM
            (fun acc2 (j : Nat) => pilAlphaComposite acc2 image ((i : Int) * sxs) ((j : Int) * sys))
            acc)
        (newRGBA nw.toNat nh.toNat ⟨255, 255, 255, 0⟩)
      = some (newRGBA nw.toNat nh.toNat ⟨255, 255, 255, 0⟩) := by
    rcases h0 with h0 | h0
    · rw [h0]; rfl
    · rw [h0]
      exact foldlM_const_some _ _
  refine ⟨newRGBA nw.toNat nh.toNat ⟨255, 255, 255, 0⟩, hfold, fun _ _ => rfl, ?_, ?_⟩
  · intro hcx0
    constructor
    · intro hge
      have : nw = 0 := by rw [hnw, hcx0]; rw [if_neg (by omega)]; ring
      simp [newRGBA, this]
    · intro hlt
      have : nw = w - sxs := by rw [hnw, hcx0]; rw [if_pos hlt]; ring
      constructor
      · simp only [newRGBA]
        rw [this]
        exact Int.toNat_of_nonneg (by omega)
      · simp only [newRGBA]
        omega
  · intro hcy0
    constructor
    · intro hge
      have : nh = 0 := by rw [hnh, hcy0]; rw [if_neg (by omega)]; ring
      simp [newRGBA, this]
    · intro hlt
      have : nh = h - sys := by rw [hnh, hcy0]; rw [if_pos hlt]; ring
      constructor
      · simp only [newRGBA]
        rw [this]
        exact Int.toNat_of_nonneg (by omega)
      · simp only [newRGBA]
        omega

/-- Witness for `rectangular_pattern_zero_count`: zero counts with unit
steps on the 1×1 tile. -/
theorem rectangular_pattern_zero_count_witness :
    (rectangular_pattern tile1 0 0 1 1).isSome = true := by
  obtain ⟨R, hR, -, -, -⟩ :=
    rectangular_pattern_zero_count tile1 0 0 1 1 (Or.inl rfl)
      (by norm_num) (by norm_num) (by norm_num) (by norm_num)
  rw [hR]
  rfl

theorem pilAlphaComposite_some (dest src : Img) (dx dy : Int)
    (hdx : 0 ≤ dx) (hdy : 0 ≤ dy)
    (hdm : dest.mode = PMode.rgba) (hsm : src.mode = PMode.rgba) :
    pilAlphaComposite dest src dx dy = some (alphaCompositePure dest src dx dy) := by
  unfold pilAlphaComposite
  rw [if_neg (by omega), if_neg (by simp [hdm, hsm])]

theorem alphaCompositePure_mode (dest src : Img) (dx dy : Int) :
    (alphaCompositePure dest src dx dy).mode = dest.mode := rfl

theorem foldl_preserve {α β : Type} (g : Img → α → Img) (f : Img → β)
    (hg : ∀ acc a, f (g acc a) = f acc) (l : List α) (acc : Img) :
    f (l.foldl g acc) = f acc := by
  induction l generalizing acc with
  | nil => rfl
  | cons a as ih => rw [List.foldl_cons, ih _, hg]

theorem inner_foldlM_eq (image : Img) (sys xi : Int) (l : List Nat) (acc : Img)
    (hacc : acc.mode = PMode.rgba) (him : image.mode = PMode.rgba)
    (hxi : 0 ≤ xi) (hsys : 0 ≤ sys) :
    l.foldlM (fun acc2 (j : Nat) => pilAlphaComposite acc2 image xi ((j : Int) * sys)) acc
      = some (l.foldl
          (fun acc2 (j : Nat) => alphaCompositePure acc2 image xi ((j : Int) * sys)) acc) := by
  induction l generalizing acc with
  | nil => rfl
  | cons j js ih =>
    rw [List.foldlM_cons,
        pilAlphaComposite_some acc image xi ((j : Int) * sys) hxi
          (mul_nonneg (Int.natCast_nonneg j) hsys) hacc him]
    rw [List.foldl_cons]
    exact ih _ hacc

theorem outer_foldlM_eq (image : Img) (sxs sys : Int) (l inner : List Nat) (acc : Img)
    (hacc : acc.mode = PMode.rgba) (him : image.mode = PMode.rgba)
    (hsxs : 0 ≤ sxs) (hsys : 0 ≤ sys) :
    l.foldlM
        (fun acc (i : Nat) =>
          inner.foldlM
            (fun acc2 (j : Nat) =>
              pilAlphaComposite acc2 image ((i : Int) * sxs) ((j : Int) * sys))
            acc)
        acc
      = some (l.foldl
          (fun acc (i : Nat) =>
            inner.foldl
              (fun acc2 (j : Nat) =>
                alphaCompositePure acc2 image ((i : Int) * sxs) ((j : Int) * sys))
              acc)
          acc) := by
  induction l generalizing acc with
  | nil => rfl
  | cons i is ih =>
    rw [List.foldlM_cons,
        inner_foldlM_eq image sys ((i : Int) * sxs) inner acc hacc him
          (mul_nonneg (Int.natCast_nonneg i) hsxs) hsys]
    rw [List.foldl_cons]
    exact ih _
      ((foldl_preserve
          (fun acc2 (j : Nat) => alphaCompositePure acc2 image ((i : Int) * sxs) ((j : Int) * sys))
          Img.mode (fun _ _ => rfl) inner acc).trans hacc)

theorem foldl_flatMap_pairs (l1 : List Nat) (f : Nat → List Nat)
    (g : Img → Nat → Nat → Img) (c : Img) :
    ((l1.flatMap (fun i => (f i).map (fun j => (i, j)))).foldl
        (fun acc p => g acc p.1 p.2) c)
      = l1.foldl (fun acc i => (f i).foldl (fun acc2 j => g acc2 i j) acc) c := by
  induction l1 generalizing c with
  | nil => rfl
  | cons i is ih =>
    rw [List.flatMap_cons, List.foldl_append, List.foldl_map, ih]
    rfl

/-- Claim C9 (counterexample): on a tile without an alpha channel the
very first `alpha_composite` raises `ValueError`, so
`rectangular_pattern` fails instead of returning the described
raster. -/
theorem rectangular_pattern_rgb_counterexample :
    rectangular_pattern tileRGB 1 1 1 1 = none := by rfl

/-- Claim C9 (amended): for every RGBA tile, nonnegative counts and
nonnegative steps, `rectangular_pattern` succeeds and returns exactly
the raster the claim describes: a canvas whose width is
count_x·step_x in supersampled units, expanded by tile-width −
scaled-step when the scaled step is smaller than the tile width
(analogously for the height), carrying the count_x·count_y copies of
the tile alpha-composited at grid offsets (i·step_x, j·step_y) in the
source's x-major order, later-drawn copies blending over earlier
ones (`rectangular_pattern_spec`). -/
theorem rectangular_pattern_spec_correct (image : Img) (cx cy sx sy : Int)
    (hm : image.mode = PMode.rgba) (hcx : 0 ≤ cx) (hcy : 0 ≤ cy)
    (hsx : 0 ≤ sx) (hsy : 0 ≤ sy) :
    rectangular_pattern image cx cy sx sy
      = some (rectangular_pattern_spec image cx cy sx sy) ∧
    ((rectangular_pattern_spec image cx cy sx sy).width : Int)
      = cx * (sx * (SCALE_FACTOR : Int)) +
        (if sx * (SCALE_FACTOR : Int) < (image.width : Int)
         then (image.width : Int) - sx * (SCALE_FACTOR : Int) else 0) ∧
    ((rectangular_pattern_spec image cx cy sx sy).height : Int)
      = cy * (sy * (SCALE_FACTOR : Int)) +
        (if sy * (SCALE_FACTOR : Int) < (image.height : Int)
         then (image.height : Int) - sy * (SCALE_FACTOR : Int) else 0) := by
  simp only [rectangular_pattern, rectangular_pattern_spec]
  set sxs : Int := sx * (SCALE_FACTOR : Int) with hsxs
  set sys : Int := sy * (SCALE_FACTOR : Int) with hsys
  have hsxs0 : 0 ≤ sxs := by rw [hsxs]; exact mul_nonneg hsx (by norm_num)
  have hsys0 : 0 ≤ sys := by rw [hsys]; exact mul_nonneg hsy (by norm_num)
  set w : Int := (image.width : Int) with hw
  set h : Int := (image.height : Int) with hh
  have hw0 : 0 ≤ w := by rw [hw]; exact_mod_cast Nat.zero_le _
  have hh0 : 0 ≤ h := by rw [hh]; exact_mod_cast Nat.zero_le _
  set nw : Int := cx * sxs + (if sxs < w then w - sxs else 0) with hnw
  set nh : Int := cy * sys + (if sys < h then h - sys else 0) with hnh
  have hnw0 : 0 ≤ nw := by
    rw [hnw]
    have h1 : 0 ≤ cx * sxs := mul_nonneg hcx hsxs0
    split <;> omega
  have hnh0 : 0 ≤ nh := by
    rw [hnh]
    have h1 : 0 ≤ cy * sys := mul_nonneg hcy hsys0
    split <;> omega
  have hshape :
      ∀ (cells : List (Nat × Nat)) (c : Img),
        (cells.foldl
            (fun acc p => alphaCompositePure acc image ((p.1 : Int) * sxs) ((p.2 : Int) * sys))
            c).width = c.width ∧
        (cells.foldl
            (fun acc p => alphaCompositePure acc image ((p.1 : Int) * sxs) ((p.2 : Int) * sys))
            c).height = c.height := by
    intro cells c
    exact ⟨foldl_preserve
             (fun acc p => alphaCompositePure acc image ((p.1 : Int) * sxs) ((p.2 : Int) * sys))
             Img.width (fun _ _ => rfl) cells c,
           foldl_preserve
             (fun acc p => alphaCompositePure acc image ((p.1 : Int) * sxs) ((p.2 : Int) * sys))
             Img.height (fun _ _ => rfl) cells c⟩
  refine ⟨?_, ?_, ?_⟩
  · rw [if_neg (by omega)]
    rw [outer_foldlM_eq image sxs sys (List.range cx.toNat) (List.range cy.toNat)
        (newRGBA nw.toNat nh.toNat ⟨255, 255, 255, 0⟩) rfl hm hsxs0 hsys0]
    rw [foldl_flatMap_pairs (List.range cx.toNat) (fun _ => List.range cy.toNat)
        (fun acc i j => alphaCompositePure acc image ((i : Int) * sxs) ((j : Int) * sys))
        (newRGBA nw.toNat nh.toNat ⟨255, 255, 255, 0⟩)]
  · rw [(hshape _ _).1]
    simp only [newRGBA]
    exact Int.toNat_of_nonneg hnw0
  · rw [(hshape _ _).2]
    simp only [newRGBA]
    exact Int.toNat_of_nonneg hnh0

/-- Witness for `rectangular_pattern_spec_correct` on the 1×1 opaque
tile with unit counts and steps. -/
theorem rectangular_pattern_spec_correct_witness :
    rectangular_pattern tile1 1 1 1 1 = some (rectangular_pattern_spec tile1 1 1 1 1) :=
  (rectangular_pattern_spec_correct tile1 1 1 1 1 rfl (by norm_num) (by norm_num)
    (by norm_num) (by norm_num)).1

/-! ### Claims C6 and C7: hex color parsing -/

theorem hexVal_range {c v : Nat} (h : hexVal? c = some v) :
    v < 16 ∧ (48 ≤ c ∧ c ≤ 57 ∨ 97 ≤ c ∧ c ≤ 102 ∨ 65 ≤ c ∧ c ≤ 70) := by
  unfold hexVal? at h
  split_ifs at h with h1 h2 h3
  · injection h with h'; omega
  · injection h with h'; omega
  · injection h with h'; omega

theorem hexDigit_notSpecial {c v : Nat} (h : hexVal? c = some v) :
    isPyWS c = false ∧ c ≠ 35 ∧ c ≠ 43 ∧ c ≠ 45 ∧ c ≠ 95 ∧ c ≠ 120 ∧ c ≠ 88 := by
  obtain ⟨-, hr⟩ := hexVal_range h
  refine ⟨?_, by omega, by omega, by omega, by omega, by omega, by omega⟩
  simp only [isPyWS, Bool.or_eq_false_iff, beq_eq_false_iff_ne, ne_eq]
  omega

theorem stripWS_pair {c0 c1 : Nat} (h0 : isPyWS c0 = false) (h1 : isPyWS c1 = false) :
    stripWS [c0, c1] = [c0, c1] := by
  simp [stripWS, h0, h1]

theorem pyIntHex_pair {c0 c1 v0 v1 : Nat}
    (h0 : hexVal? c0 = some v0) (h1 : hexVal? c1 = some v1) :
    pyIntHex [c0, c1] = some ((16 * v0 + v1 : Nat) : Int) := by
  obtain ⟨hws0, hh0, hp0, hm0, hu0, hx0, hX0⟩ := hexDigit_notSpecial h0
  obtain ⟨hws1, hh1, hp1, hm1, hu1, hx1, hX1⟩ := hexDigit_notSpecial h1
  simp only [pyIntHex, stripWS_pair hws0 hws1]
  rw [if_neg hp0, if_neg hm0]
  simp only [pyIntHexMag]
  rw [if_neg (by rintro ⟨-, h⟩; rcases h with hx | hX; exacts [hx1 hx, hX1 hX])]
  simp only [hexDigitsParse, h0, hexDigitsGo]
  rw [if_neg hu1, h1]
  rfl

theorem hexCharU_upper {c v : Nat} (h : hexVal? c = some v) : hexCharU v = upperCode c := by
  obtain ⟨hv, hr⟩ := hexVal_range h
  unfold hexVal? at h
  split_ifs at h with h1 h2 h3
  · injection h with h'; unfold hexCharU upperCode; split_ifs <;> omega
  · injection h with h'; unfold hexCharU upperCode; split_ifs <;> omega
  · injection h with h'; unfold hexCharU upperCode; split_ifs <;> omega

theorem hexVal_hexCharU {v : Nat} (h : v < 16) : hexVal? (hexCharU v) = some v := by
  have H : ∀ v < 16, hexVal? (hexCharU v) = some v := by decide
  exact H v h

theorem encodeHexPair_eq {v0 v1 : Nat} (h1 : v1 < 16) :
    encodeHexPair (16 * v0 + v1) = [hexCharU v0, hexCharU v1] := by
  unfold encodeHexPair
  rw [show (16 * v0 + v1) / 16 = v0 by omega, show (16 * v0 + v1) % 16 = v1 by omega]

theorem hex6_parse {c0 c1 c2 c3 c4 c5 v0 v1 v2 v3 v4 v5 : Nat}
    (h0 : hexVal? c0 = some v0) (h1 : hexVal? c1 = some v1)
    (h2 : hexVal? c2 = some v2) (h3 : hexVal? c3 = some v3)
    (h4 : hexVal? c4 = some v4) (h5 : hexVal? c5 = some v5) :
    hex_to_rgb [c0, c1, c2, c3, c4, c5]
      = some (((16 * v0 + v1 : Nat) : Int), ((16 * v2 + v3 : Nat) : Int),
              ((16 * v4 + v5 : Nat) : Int)) := by
  have hh0 : c0 ≠ 35 := (hexDigit_notSpecial h0).2.1
  have hstrip : hashStrip [c0, c1, c2, c3, c4, c5] = [c0, c1, c2, c3, c4, c5] := by
    simp [hashStrip, hh0]
  simp only [hex_to_rgb, hstrip]
  have hs0 : slice2 [c0, c1, c2, c3, c4, c5] 0 = [c0, c1] := rfl
  have hs2 : slice2 [c0, c1, c2, c3, c4, c5] 2 = [c2, c3] := rfl
  have hs4 : slice2 [c0, c1, c2, c3, c4, c5] 4 = [c4, c5] := rfl
  rw [hs0, hs2, hs4, pyIntHex_pair h0 h1, pyIntHex_pair h2 h3, pyIntHex_pair h4 h5]

/-- Claim C6 (counterexample): the seven-hex-digit string "AABBCCD"
(wrong length) does not raise — `hex_to_rgb` returns (170, 187, 204),
silently ignoring the seventh digit. -/
theorem hex_to_rgb_length_counterexample :
    codesAABBCCD.length = 7 ∧
    hex_to_rgb codesAABBCCD = some (170, 187, 204) := by
  exact ⟨by decide, by decide⟩

/-- Claim C6 (amended): `hex_to_rgb` raises exactly when one of the
three two-character slices at positions 0–1, 2–3, 4–5 of the
`#`-stripped input fails to parse as a base-16 Python integer — a wrong
overall length alone does not force an error (extra characters beyond
the sixth are ignored, and a five-character input parses its lone fifth
character as the blue slice); every string of exactly six hexadecimal
digits returns the corresponding triple with every component in
[0, 255]. -/
theorem hex_to_rgb_characterization (cs : List Nat) :
    (hex_to_rgb cs = none ↔
      pyIntHex (slice2 (hashStrip cs) 0) = none ∨
      pyIntHex (slice2 (hashStrip cs) 2) = none ∨
      pyIntHex (slice2 (hashStrip cs) 4) = none) ∧
    (cs.length = 6 → (∀ c ∈ cs, (hexVal? c).isSome = true) →
      ∃ r g b : Nat, hex_to_rgb cs = some ((r : Int), (g : Int), (b : Int)) ∧
        r ≤ 255 ∧ g ≤ 255 ∧ b ≤ 255) := by
  constructor
  · simp only [hex_to_rgb]
    cases hA : pyIntHex (slice2 (hashStrip cs) 0) <;>
      cases hB : pyIntHex (slice2 (hashStrip cs) 2) <;>
        cases hC : pyIntHex (slice2 (hashStrip cs) 4) <;> simp
  · intro hlen hall
    rcases cs with - | ⟨c0, cs⟩
    · simp at hlen
    rcases cs with - | ⟨c1, cs⟩
    · simp at hlen
    rcases cs with - | ⟨c2, cs⟩
    · simp at hlen
    rcases cs with - | ⟨c3, cs⟩
    · simp at hlen
    rcases cs with - | ⟨c4, cs⟩
    · simp at hlen
    rcases cs with - | ⟨c5, cs⟩
    · simp at hlen
    rcases cs with - | ⟨c6, cs⟩
    swap
    · simp at hlen
    obtain ⟨v0, h0⟩ := Option.isSome_iff_exists.mp (hall c0 (by simp))
    obtain ⟨v1, h1⟩ := Option.isSome_iff_exists.mp (hall c1 (by simp))
    obtain ⟨v2, h2⟩ := Option.isSome_iff_exists.mp (hall c2 (by simp))
    obtain ⟨v3, h3⟩ := Option.isSome_iff_exists.mp (hall c3 (by simp))
    obtain ⟨v4, h4⟩ := Option.isSome_iff_exists.mp (hall c4 (by simp))
    obtain ⟨v5, h5⟩ := Option.isSome_iff_exists.mp (hall c5 (by simp))
    refine ⟨16 * v0 + v1, 16 * v2 + v3, 16 * v4 + v5,
            hex6_parse h0 h1 h2 h3 h4 h5, ?_, ?_, ?_⟩
    · have := (hexVal_range h0).1
      have := (hexVal_range h1).1
      omega
    · have := (hexVal_range h2).1
      have := (hexVal_range h3).1
      omega
    · have := (hexVal_range h4).1
      have := (hexVal_range h5).1
      omega

/-- Witness for `hex_to_rgb_characterization` on the six-digit string
"aAbBcC". -/
theorem hex_to_rgb_characterization_witness :
    (hex_to_rgb codesaAbBcC).isSome = true := by
  obtain ⟨r, g, b, hrgb, -, -, -⟩ :=
    (hex_to_rgb_characterization codesaAbBcC).2 (by decide) (by decide)
  rw [hrgb]
  rfl

/-- Claim C7: on strings of exactly six hexadecimal digits,
`hex_to_rgb` is a bijection onto the 256³ integer triples: re-encoding
the returned (R, G, B) triple as six hexadecimal digits reproduces the
input up to letter case, and every triple of bytes is obtained from its
six-digit encoding. -/
theorem hex_to_rgb_roundtrip :
    (∀ cs : List Nat, cs.length = 6 → (∀ c ∈ cs, (hexVal? c).isSome = true) →
      ∃ r g b : Nat, hex_to_rgb cs = some ((r : Int), (g : Int), (b : Int)) ∧
        r < 256 ∧ g < 256 ∧ b < 256 ∧
        encodeHexTriple r g b = cs.map upperCode) ∧
    (∀ r g b : Nat, r < 256 → g < 256 → b < 256 →
      hex_to_rgb (encodeHexTriple r g b) = some ((r : Int), (g : Int), (b : Int))) := by
  constructor
  · intro cs hlen hall
    rcases cs with - | ⟨c0, cs⟩
    · simp at hlen
    rcases cs with - | ⟨c1, cs⟩
    · simp at hlen
    rcases cs with - | ⟨c2, cs⟩
    · simp at hlen
    rcases cs with - | ⟨c3, cs⟩
    · simp at hlen
    rcases cs with - | ⟨c4, cs⟩
    · simp at hlen
    rcases cs with - | ⟨c5, cs⟩
    · simp at hlen
    rcases cs with - | ⟨c6, cs⟩
    swap
    · simp at hlen
    obtain ⟨v0, h0⟩ := Option.isSome_iff_exists.mp (hall c0 (by simp))
    obtain ⟨v1, h1⟩ := Option.isSome_iff_exists.mp (hall c1 (by simp))
    obtain ⟨v2, h2⟩ := Option.isSome_iff_exists.mp (hall c2 (by simp))
    obtain ⟨v3, h3⟩ := Option.isSome_iff_exists.mp (hall c3 (by simp))
    obtain ⟨v4, h4⟩ := Option.isSome_iff_exists.mp (hall c4 (by simp))
    obtain ⟨v5, h5⟩ := Option.isSome_iff_exists.mp (hall c5 (by simp))
    refine ⟨16 * v0 + v1, 16 * v2 + v3, 16 * v4 + v5,
            hex6_parse h0 h1 h2 h3 h4 h5, ?_, ?_, ?_, ?_⟩
    · have := (hexVal_range h0).1
      have := (hexVal_range h1).1
      omega
    · have := (hexVal_range h2).1
      have := (hexVal_range h3).1
      omega
    · have := (hexVal_range h4).1
      have := (hexVal_range h5).1
      omega
    · unfold encodeHexTriple
      rw [encodeHexPair_eq (hexVal_range h1).1, encodeHexPair_eq (hexVal_range h3).1,
          encodeHexPair_eq (hexVal_range h5).1,
          hexCharU_upper h0, hexCharU_upper h1, hexCharU_upper h2,
          hexCharU_upper h3, hexCharU_upper h4, hexCharU_upper h5]
      rfl
  · intro r g b hr hg hb
    have he : encodeHexTriple r g b
        = [hexCharU (r / 16), hexCharU (r % 16), hexCharU (g / 16), hexCharU (g % 16),
           hexCharU (b / 16), hexCharU (b % 16)] := rfl
    rw [he, hex6_parse (hexVal_hexCharU (by omega)) (hexVal_hexCharU (by omega))
          (hexVal_hexCharU (by omega)) (hexVal_hexCharU (by omega))
          (hexVal_hexCharU (by omega)) (hexVal_hexCharU (by omega)),
        show 16 * (r / 16) + r % 16 = r by omega,
        show 16 * (g / 16) + g % 16 = g by omega,
        show 16 * (b / 16) + b % 16 = b by omega]

/-- Witness for `hex_to_rgb_roundtrip`: the decode of the six-digit
encoding of (170, 187, 204), and the re-encoding of the parse of
"aAbBcC" reproducing its uppercase form. -/
theorem hex_to_rgb_roundtrip_witness :
    hex_to_rgb (encodeHexTriple 170 187 204) = some ((170 : Int), (187 : Int), (204 : Int)) ∧
    encodeHexTriple 170 187 204 = codesaAbBcC.map upperCode := by
  refine ⟨hex_to_rgb_roundtrip.2 170 187 204 (by norm_num) (by norm_num) (by norm_num), ?_⟩
  obtain ⟨r, g, b, hrgb, -, -, -, henc⟩ :=
    hex_to_rgb_roundtrip.1 codesaAbBcC (by decide) (by decide)
  have hval : hex_to_rgb codesaAbBcC = some ((170 : Int), (187 : Int), (204 : Int)) := by decide
  rw [hval] at hrgb
  injection hrgb with hrgb
  have h1 : (r : Int) = 170 := (congrArg Prod.fst hrgb).symm
  have h2 : (g : Int) = 187 := (congrArg Prod.fst (congrArg Prod.snd hrgb)).symm
  have h3 : (b : Int) = 204 := (congrArg Prod.snd (congrArg Prod.snd hrgb)).symm
  have hr : r = 170 := by exact_mod_cast h1
  have hg : g = 187 := by exact_mod_cast h2
  have hb : b = 204 := by exact_mod_cast h3
  rw [hr, hg, hb] at henc
  exact henc

/-! ### Claim C8: full-size opaque overlay -/

theorem overlayPrep_opaque (ov : Img) : overlayPrep ov 255 = convertRGBA ov := by
  unfold overlayPrep
  rw [convert_ite, if_neg (by norm_num)]

/-- Claim C8: for every base raster and every overlay raster of exactly
the base's size whose every pixel is fully opaque,
`overlay_images(base, overlay, 0, 0, 255)` returns a raster whose every
pixel equals the corresponding pixel of the (RGBA-promoted) overlay. -/
theorem overlay_images_opaque (base ov : Img)
    (hw : ov.width = base.width) (hh : ov.height = base.height)
    (hbytes : ov.Bytes)
    (hop : ∀ x y, ((convertRGBA ov).pix x y).a = 255) :
    ∃ R, overlay_images base ov 0 0 255 = some R ∧
      R.width = base.width ∧ R.height = base.height ∧
      ∀ px py, px < base.width → py < base.height →
        R.pix px py = (convertRGBA ov).pix px py := by
  have hcw : (convertRGBA ov).width = base.width := (convertRGBA_width ov).trans hw
  have hch : (convertRGBA ov).height = base.height := (convertRGBA_height ov).trans hh
  have heq : overlay_images base ov 0 0 255
      = some (paste (convertRGBA base) (convertRGBA ov) 0 0) := by
    simp only [overlay_images, overlayPrep_opaque, zero_mul]
    rw [show overlayCropLeft (convertRGBA ov) 0 ((convertRGBA ov).width : Int)
          ((convertRGBA ov).height : Int) = some (convertRGBA ov, 0) by
        unfold overlayCropLeft; rw [if_neg (by omega)]]
    rw [Option.some_bind]
    rw [show overlayCropTop (convertRGBA ov) 0 ((convertRGBA ov).width : Int)
          ((convertRGBA ov).height : Int) = some (convertRGBA ov, 0) by
        unfold overlayCropTop; rw [if_neg (by omega)]]
    rw [Option.some_bind]
    rw [show overlayCropRight (convertRGBA ov) 0 ((convertRGBA ov).width : Int)
          (base.width : Int) ((convertRGBA ov).height : Int) = some (convertRGBA ov) by
        unfold overlayCropRight; rw [if_neg (by rw [hcw]; omega)]]
    rw [Option.some_bind]
    rw [show overlayCropBottom (convertRGBA ov) 0 ((convertRGBA ov).height : Int)
          (base.height : Int) ((convertRGBA ov).width : Int) = some (convertRGBA ov) by
        unfold overlayCropBottom; rw [if_neg (by rw [hch]; omega)]]
    rfl
  refine ⟨paste (convertRGBA base) (convertRGBA ov) 0 0, heq,
          convertRGBA_width base, convertRGBA_height base, ?_⟩
  intro px py hpx hpy
  have hbytes' := convertRGBA_bytes ov hbytes
  have hs := hbytes' px (by rw [hcw]; exact hpx) py (by rw [hch]; exact hpy)
  unfold paste
  simp only
  rw [if_pos ⟨by omega, by rw [hcw]; omega, by omega, by rw [hch]; omega⟩]
  rw [show ((px : Int) - 0).toNat = px by omega, show ((py : Int) - 0).toNat = py by omega]
  exact pastePix_opaque _ _ (hop px py) ⟨hs.1, hs.2.1, hs.2.2.1⟩

/-- Witness for `overlay_images_opaque` on the 4×4 rasters `base4` and
`ov4`. -/
theorem overlay_images_opaque_witness :
    ((overlay_images base4 ov4 0 0 255).map (fun R => R.pix 1 2))
      = some ((convertRGBA ov4).pix 1 2) := by
  obtain ⟨R, hR, -, -, hpix⟩ :=
    overlay_images_opaque base4 ov4 rfl rfl (by unfold Img.Bytes; decide) (fun _ _ => rfl)
  rw [hR]
  exact congrArg some (hpix 1 2 (by decide) (by decide))

/-! ### Claim C1: overlay bounds behavior -/

theorem overlayPrep_width (ov : Img) (t : Nat) : (overlayPrep ov t).width = ov.width := by
  unfold overlayPrep
  rw [convert_ite]
  split
  · exact convertRGBA_width ov
  · exact convertRGBA_width ov

theorem overlayPrep_height (ov : Img) (t : Nat) : (overlayPrep ov t).height = ov.height := by
  unfold overlayPrep
  rw [convert_ite]
  split
  · exact convertRGBA_height ov
  · exact convertRGBA_height ov

theorem pilCrop_some (img : Img) (l u r d : Int) (h1 : l ≤ r) (h2 : u ≤ d) :
    pilCrop img l u r d = some (cropPure img l u r d) := by
  unfold pilCrop
  rw [if_neg (by omega)]

theorem cropPure_pix_zero_of_all {img : Img} (l u r d : Int)
    (hz : ∀ a b, img.pix a b = ⟨0, 0, 0, 0⟩) :
    ∀ a b, (cropPure img l u r d).pix a b = ⟨0, 0, 0, 0⟩ := by
  intro a b
  unfold cropPure
  simp only
  split
  · exact hz _ _
  · rfl

theorem cropPure_pix_zero_left {img : Img} (l u r d : Int) (hl : (img.width : Int) ≤ l) :
    ∀ a b, (cropPure img l u r d).pix a b = ⟨0, 0, 0, 0⟩ := by
  intro a b
  unfold cropPure
  simp only
  rw [if_neg (by rintro ⟨-, h2, -, -⟩; omega)]

theorem cropPure_pix_zero_top {img : Img} (l u r d : Int) (hu : (img.height : Int) ≤ u) :
    ∀ a b, (cropPure img l u r d).pix a b = ⟨0, 0, 0, 0⟩ := by
  intro a b
  unfold cropPure
  simp only
  rw [if_neg (by rintro ⟨-, -, -, h4⟩; omega)]

theorem paste_pix_invisible (dest src : Img) (x y : Int) (hd : dest.Bytes)
    (hz : ∀ px py, px < dest.width → py < dest.height →
        (x ≤ (px : Int) ∧ (px : Int) < x + src.width ∧
         y ≤ (py : Int) ∧ (py : Int) < y + src.height) →
        (src.pix ((px : Int) - x).toNat ((py : Int) - y).toNat).a = 0) :
    ∀ px py, px < dest.width → py < dest.height →
      (paste dest src x y).pix px py = dest.pix px py := by
  intro px py hpx hpy
  unfold paste
  simp only
  by_cases hcond : x ≤ (px : Int) ∧ (px : Int) < x + src.width ∧
      y ≤ (py : Int) ∧ (py : Int) < y + src.height
  · rw [if_pos hcond]
    exact pastePix_clear _ _ (hz px py hpx hpy hcond) (hd px hpx py hpy)
  · rw [if_neg hcond]

theorem overlay_eq_paste (base ov : Img) (ox oy : Int) (t : Nat)
    (ov1 ov2 ov3 ov4 ov5 : Img) (x0 y0 wo ho W H x y : Int)
    (hov1 : ov1 = overlayPrep ov t)
    (hx0 : x0 = ox * (SCALE_FACTOR : Int)) (hy0 : y0 = oy * (SCALE_FACTOR : Int))
    (hwo : wo = (ov1.width : Int)) (hho : ho = (ov1.height : Int))
    (hW : W = (base.width : Int)) (hH : H = (base.height : Int))
    (hov2 : ov2 = if x0 < 0 then cropPure ov1 (-x0) 0 wo ho else ov1)
    (hx : x = if x0 < 0 then 0 else x0)
    (hov3 : ov3 = if y0 < 0 then cropPure ov2 0 (-y0) wo ho else ov2)
    (hy : y = if y0 < 0 then 0 else y0)
    (hov4 : ov4 = if x + wo > W then cropPure ov3 0 0 (W - x) ho else ov3)
    (hov5 : ov5 = if y + ho > H then cropPure ov4 0 0 wo (H - y) else ov4)
    (hx1 : -wo ≤ x0) (hx2 : x0 ≤ W) (hy1 : -ho ≤ y0) (hy2 : y0 ≤ H) :
    overlay_images base ov ox oy t = some (paste (convertRGBA base) ov5 x y) := by
  have hwo0 : 0 ≤ wo := by rw [hwo]; exact_mod_cast Nat.zero_le _
  have hho0 : 0 ≤ ho := by rw [hho]; exact_mod_cast Nat.zero_le _
  have hW0 : 0 ≤ W := by rw [hW]; exact_mod_cast Nat.zero_le _
  have hH0 : 0 ≤ H := by rw [hH]; exact_mod_cast Nat.zero_le _
  have hxle : x ≤ W := by rw [hx]; split <;> omega
  have hyle : y ≤ H := by rw [hy]; split <;> omega
  have h1 : overlayCropLeft ov1 x0 wo ho = some (ov2, x) := by
    rw [hov2, hx]
    unfold overlayCropLeft
    by_cases c1 : x0 < 0
    · simp only [if_pos c1]
      rw [pilCrop_some ov1 (-x0) 0 wo ho (by omega) (by omega)]
      rfl
    · simp only [if_neg c1]
  have h2 : overlayCropTop ov2 y0 wo ho = some (ov3, y) := by
    rw [hov3, hy]
    unfold overlayCropTop
    by_cases c2 : y0 < 0
    · simp only [if_pos c2]
      rw [pilCrop_some ov2 0 (-y0) wo ho (by omega) (by omega)]
      rfl
    · simp only [if_neg c2]
  have h3 : overlayCropRight ov3 x wo W ho = some ov4 := by
    rw [hov4]
    unfold overlayCropRight
    by_cases c3 : x + wo > W
    · simp only [if_pos c3]
      rw [pilCrop_some ov3 0 0 (W - x) ho (by omega) (by omega)]
    · simp only [if_neg c3]
  have h4 : overlayCropBottom ov4 y ho H wo = some ov5 := by
    rw [hov5]
    unfold overlayCropBottom
    by_cases c4 : y + ho > H
    · simp only [if_pos c4]
      rw [pilCrop_some ov4 0 0 wo (H - y) (by omega) (by omega)]
    · simp only [if_neg c4]
  simp only [overlay_images]
  rw [← hov1, ← hx0, ← hy0, ← hwo, ← hho, ← hW, ← hH]
  rw [h1, Option.some_bind]
  dsimp only
  rw [h2, Option.some_bind]
  dsimp only
  rw [h3, Option.some_bind]
  rw [h4]
  rfl

theorem cropPure_width (img : Img) (l u r d : Int) :
    (cropPure img l u r d).width = (r - l).toNat := rfl

theorem cropPure_height (img : Img) (l u r d : Int) :
    (cropPure img l u r d).height = (d - u).toNat := rfl

theorem overlay_paste_invisible (base ov : Img) (t : Nat)
    (ov1 ov2 ov3 ov4 ov5 : Img) (x0 y0 wo ho W H x y : Int)
    (_hov1 : ov1 = overlayPrep ov t)
    (hwo : wo = (ov1.width : Int)) (hho : ho = (ov1.height : Int))
    (hW : W = (base.width : Int)) (hH : H = (base.height : Int))
    (hov2 : ov2 = if x0 < 0 then cropPure ov1 (-x0) 0 wo ho else ov1)
    (hx : x = if x0 < 0 then 0 else x0)
    (hov3 : ov3 = if y0 < 0 then cropPure ov2 0 (-y0) wo ho else ov2)
    (hy : y = if y0 < 0 then 0 else y0)
    (hov4 : ov4 = if x + wo > W then cropPure ov3 0 0 (W - x) ho else ov3)
    (hov5 : ov5 = if y + ho > H then cropPure ov4 0 0 wo (H - y) else ov4)
    (hbytes : base.Bytes)
    (hfo : x0 = -wo ∨ x0 = W ∨ y0 = -ho ∨ y0 = H) :
    ∀ px py, px < base.width → py < base.height →
      (paste (convertRGBA base) ov5 x y).pix px py = (convertRGBA base).pix px py := by
  have hwo0 : 0 ≤ wo := by rw [hwo]; exact_mod_cast Nat.zero_le _
  have hho0 : 0 ≤ ho := by rw [hho]; exact_mod_cast Nat.zero_le _
  have hW0 : 0 ≤ W := by rw [hW]; exact_mod_cast Nat.zero_le _
  have hH0 : 0 ≤ H := by rw [hH]; exact_mod_cast Nat.zero_le _
  have hz : ∀ px py, px < (convertRGBA base).width → py < (convertRGBA base).height →
      (x ≤ (px : Int) ∧ (px : Int) < x + ov5.width ∧
       y ≤ (py : Int) ∧ (py : Int) < y + ov5.height) →
      (ov5.pix ((px : Int) - x).toNat ((py : Int) - y).toNat).a = 0 := by
    rcases hfo with hA | hB | hC | hD
    · -- overlay exactly fully outside on the left: x0 = -wo
      by_cases hwz : wo = 0
      · -- zero-width overlay: the pasted region is empty
        have hx0z : x0 = 0 := by omega
        have hxz : x = 0 := by rw [hx, if_neg (by omega)]; exact hx0z
        have h1w : ov1.width = 0 := by omega
        have h2w : ov2.width = 0 := by
          rw [hov2, if_neg (by omega)]; exact h1w
        have h3w : ov3.width = 0 := by
          rw [hov3]; split
          · rw [cropPure_width]; omega
          · exact h2w
        have h4w : ov4.width = 0 := by
          rw [hov4, if_neg (by omega)]; exact h3w
        have h5w : ov5.width = 0 := by
          rw [hov5]; split
          · rw [cropPure_width]; omega
          · exact h4w
        intro px py _ _ hcond
        exfalso
        rw [h5w] at hcond
        omega
      · -- the left crop keeps nothing; every later pixel is zero-filled
        have hx0n : x0 < 0 := by omega
        have hz2 : ∀ a b, ov2.pix a b = ⟨0, 0, 0, 0⟩ := by
          rw [hov2, if_pos hx0n]
          exact cropPure_pix_zero_left (-x0) 0 wo ho (by omega)
        have hz3 : ∀ a b, ov3.pix a b = ⟨0, 0, 0, 0⟩ := by
          rw [hov3]; split
          · exact cropPure_pix_zero_of_all 0 (-y0) wo ho hz2
          · exact hz2
        have hz4 : ∀ a b, ov4.pix a b = ⟨0, 0, 0, 0⟩ := by
          rw [hov4]; split
          · exact cropPure_pix_zero_of_all 0 0 (W - x) ho hz3
          · exact hz3
        have hz5 : ∀ a b, ov5.pix a b = ⟨0, 0, 0, 0⟩ := by
          rw [hov5]; split
          · exact cropPure_pix_zero_of_all 0 0 wo (H - y) hz4
          · exact hz4
        intro px py _ _ _
        rw [hz5]
    · -- overlay exactly fully outside on the right: x0 = W
      have hxW : x = W := by rw [hx, if_neg (by omega)]; exact hB
      intro px py hpx _ hcond
      exfalso
      rw [convertRGBA_width] at hpx
      omega
    · -- overlay exactly fully outside at the top: y0 = -ho
      by_cases hhz : ho = 0
      · have hy0z : y0 = 0 := by omega
        have hyz : y = 0 := by rw [hy, if_neg (by omega)]; exact hy0z
        have h1h : ov1.height = 0 := by omega
        have h2h : ov2.height = 0 := by
          rw [hov2]; split
          · rw [cropPure_height]; omega
          · exact h1h
        have h3h : ov3.height = 0 := by
          rw [hov3, if_neg (by omega)]; exact h2h
        have h4h : ov4.height = 0 := by
          rw [hov4]; split
          · rw [cropPure_height]; omega
          · exact h3h
        have h5h : ov5.height = 0 := by
          rw [hov5, if_neg (by omega)]; exact h4h
        intro px py _ _ hcond
        exfalso
        rw [h5h] at hcond
        omega
      · have hy0n : y0 < 0 := by omega
        have h2h : (ov2.height : Int) = ho := by
          rw [hov2]; split
          · rw [cropPure_height]; omega
          · omega
        have hz3 : ∀ a b, ov3.pix a b = ⟨0, 0, 0, 0⟩ := by
          rw [hov3, if_pos hy0n]
          exact cropPure_pix_zero_top 0 (-y0) wo ho (by omega)
        have hz4 : ∀ a b, ov4.pix a b = ⟨0, 0, 0, 0⟩ := by
          rw [hov4]; split
          · exact cropPure_pix_zero_of_all 0 0 (W - x) ho hz3
          · exact hz3
        have hz5 : ∀ a b, ov5.pix a b = ⟨0, 0, 0, 0⟩ := by
          rw [hov5]; split
          · exact cropPure_pix_zero_of_all 0 0 wo (H - y) hz4
          · exact hz4
        intro px py _ _ _
        rw [hz5]
    · -- overlay exactly fully outside at the bottom: y0 = H
      have hyH : y = H := by rw [hy, if_neg (by omega)]; exact hD
      intro px py _ hpy hcond
      exfalso
      rw [convertRGBA_height] at hpy
      omega
  intro px py hpx hpy
  exact paste_pix_invisible (convertRGBA base) ov5 x y (convertRGBA_bytes base hbytes) hz px py
    (by rw [convertRGBA_width]; exact hpx) (by rw [convertRGBA_height]; exact hpy)

/-- Claim C1 (counterexample): with a 4×4 base, a 4×4 overlay and
offset (2, 0) — scaled x offset 8, beyond the base's width 4 — the
third crop box is inverted and `crop` raises `ValueError`:
`overlay_images` does not return a raster. -/
theorem overlay_images_raises_counterexample :
    overlay_images base4 ov4 2 0 255 = none := by rfl

/-- Claim C1 (amended): whenever the scaled offset keeps every crop box
well-formed — `-overlay_width ≤ offset_x·S ≤ base_width` and
`-overlay_height ≤ offset_y·S ≤ base_height` — `overlay_images` returns
a raster of exactly the base's width and height, for every transparency
byte; when the offset moreover places the overlay exactly fully outside
the base (equality at either end of the window on either axis), the
result equals the RGBA-promoted base unchanged.  Offsets outside that
window make the internal `crop` raise `ValueError` (see the
counterexample). -/
theorem overlay_images_window (base ov : Img) (ox oy : Int) (t : Nat)
    (hbytes : base.Bytes)
    (hx1 : -(ov.width : Int) ≤ ox * (SCALE_FACTOR : Int))
    (hx2 : ox * (SCALE_FACTOR : Int) ≤ (base.width : Int))
    (hy1 : -(ov.height : Int) ≤ oy * (SCALE_FACTOR : Int))
    (hy2 : oy * (SCALE_FACTOR : Int) ≤ (base.height : Int)) :
    ∃ R, overlay_images base ov ox oy t = some R ∧
      R.width = base.width ∧ R.height = base.height ∧
      ((ox * (SCALE_FACTOR : Int) = -(ov.width : Int) ∨
        ox * (SCALE_FACTOR : Int) = (base.width : Int) ∨
        oy * (SCALE_FACTOR : Int) = -(ov.height : Int) ∨
        oy * (SCALE_FACTOR : Int) = (base.height : Int)) →
        ∀ px py, px < base.width → py < base.height →
          R.pix px py = (convertRGBA base).pix px py) := by
  set x0 : Int := ox * (SCALE_FACTOR : Int) with hx0
  set y0 : Int := oy * (SCALE_FACTOR : Int) with hy0
  set ov1 : Img := overlayPrep ov t with hov1
  set wo : Int := (ov1.width : Int) with hwo
  set ho : Int := (ov1.height : Int) with hho
  set W : Int := (base.width : Int) with hW
  set H : Int := (base.height : Int) with hH
  have hww : wo = (ov.width : Int) := by
    rw [hwo, hov1, overlayPrep_width]
  have hhh : ho = (ov.height : Int) := by
    rw [hho, hov1, overlayPrep_height]
  set ov2 : Img := if x0 < 0 then cropPure ov1 (-x0) 0 wo ho else ov1 with hov2
  set x : Int := if x0 < 0 then 0 else x0 with hx
  set ov3 : Img := if y0 < 0 then cropPure ov2 0 (-y0) wo ho else ov2 with hov3
  set y : Int := if y0 < 0 then 0 else y0 with hy
  set ov4 : Img := if x + wo > W then cropPure ov3 0 0 (W - x) ho else ov3 with hov4
  set ov5 : Img := if y + ho > H then cropPure ov4 0 0 wo (H - y) else ov4 with hov5
  have hmain : overlay_images base ov ox oy t = some (paste (convertRGBA base) ov5 x y) :=
    overlay_eq_paste base ov ox oy t ov1 ov2 ov3 ov4 ov5 x0 y0 wo ho W H x y
      hov1 hx0 hy0 hwo hho hW hH hov2 hx hov3 hy hov4 hov5
      (by omega) (by rw [hW] at hx2; exact hx2) (by omega) (by rw [hH] at hy2; exact hy2)
  refine ⟨paste (convertRGBA base) ov5 x y, hmain, convertRGBA_width base,
          convertRGBA_height base, ?_⟩
  intro hfo px py hpx hpy
  exact overlay_paste_invisible base ov t ov1 ov2 ov3 ov4 ov5 x0 y0 wo ho W H x y
    hov1 hwo hho hW hH hov2 hx hov3 hy hov4 hov5 hbytes
    (by rcases hfo with h | h | h | h
        · left; omega
        · right; left; rw [hW]; exact h
        · right; right; left; omega
        · right; right; right; rw [hH]; exact h)
    px py hpx hpy

/-- Witness for `overlay_images_window`: the 4×4 overlay placed exactly
at the base's right edge (scaled offset 4 = base width) — the result is
the base unchanged. -/
theorem overlay_images_window_witness :
    ((overlay_images base4 ov4 1 0 255).map (fun R => (R.width, R.height)))
      = some (base4.width, base4.height) ∧
    ((overlay_images base4 ov4 1 0 255).map (fun R => R.pix 3 3))
      = some ((convertRGBA base4).pix 3 3) := by
  obtain ⟨R, hR, hRw, hRh, hfo⟩ :=
    overlay_images_window base4 ov4 1 0 255 (by unfold Img.Bytes; decide)
      (by decide) (by decide) (by decide) (by decide)
  rw [hR]
  constructor
  · rw [Option.map_some']
    rw [hRw, hRh]
  · rw [Option.map_some']
    exact congrArg some
      (hfo (by right; left; decide) 3 3 (by decide) (by decide))
